import Mathlib

/-!
Verification of `generic_dataset/dataset_disk_manager.py`
(micheleantonazzi/gibson-dataset-acquirer).

The Python class `DatasetDiskManager` manages the on-disk layout of a
labeled dataset: it creates a directory tree
`<dataset_path>/<folder_name>/{positive_samples,negative_samples}/<field>/`,
counts pre-existing files at construction, and hands out collision-free
file names `{polarity}_{field}_{total}_({ordinal})` for each save.

We embed the code shallowly:
  * Python strings are Lean `String`s; `str(n)` on a non-negative int is
    modelled by `natStr`.
  * A Python sample object is `GenericSample`: its concrete class is a
    numeric tag `typeId`, `ancestors` is the list of class tags the object
    is an instance of (so `isinstance(s, C)` is `C ∈ s.ancestors`),
    `is_positive` and `dataset_fields` mirror `sample.is_positive()` and
    `sample.get_dataset_fields()`.
  * The filesystem is `FileSystem`: a list of existing directories and a
    list of (directory, filename) regular-file entries; paths are lists of
    components, `os.path.join` is list append and `os.path.dirname` drops
    the last component.
  * The lock serializes the counter bookkeeping, so the reservation step
    of `save_sample` is modelled as the atomic function `reserve`; the
    per-field write loop (which runs outside the lock, possibly on another
    thread) is `write_loop`, parameterized over a writer that may fail to
    model `sample.save_field` raising.
-/

/-- Decimal digit characters of `n`, as produced by Python `str(n)` for
`n ≥ 0`.  Structural recursion on a fuel argument (any fuel `> n` gives the
same answer, see `natCharsAux_fuel`). -/
def natCharsAux : Nat → Nat → List Char
  | 0, _ => []
  | f + 1, n =>
    if n < 10 then [Nat.digitChar n]
    else natCharsAux f (n / 10) ++ [Nat.digitChar (n % 10)]

/-- Decimal rendering of `n` as a character list. -/
def natChars (n : Nat) : List Char :=
  natCharsAux (n + 1) n

/-- Model of Python `str(n)` for a non-negative integer. -/
def natStr (n : Nat) : String :=
  ⟨natChars n⟩


/-- A Python sample object, as used by `DatasetDiskManager`.  `typeId` is a
tag for the object's concrete class; `ancestors` lists the tags of every
class the object is an instance of (its class and all superclasses), so
Python's `isinstance(s, C)` is modelled by `C ∈ s.ancestors`.
`is_positive` models `sample.is_positive()` and `dataset_fields` models
`sample.get_dataset_fields()` (a stable enumeration of field names). -/
structure GenericSample where
  typeId : Nat
  ancestors : List Nat
  is_positive : Bool
  dataset_fields : List String
deriving DecidableEq

/-- The filesystem: existing directories (paths are lists of components,
`os.path.join` is append) and regular files as (directory, filename)
entries. -/
structure FileSystem where
  dirs : List (List String)
  files : List (List String × String)
deriving DecidableEq

/-- Model of `os.path.exists`: the path is an existing directory or regular file. -/
def existsPath (fs : FileSystem) (p : List String) : Bool :=
  fs.dirs.contains p || fs.files.any fun f => f.1 ++ [f.2] = p

/-- Model of `os.path.dirname`: drop the last path component. -/
def dirname (p : List String) : List String :=
  p.dropLast

/-- Model of `if not os.path.exists(path): os.mkdir(path)`. -/
def mkdirIfAbsent (fs : FileSystem) (p : List String) : FileSystem :=
  if existsPath fs p then fs else { fs with dirs := p :: fs.dirs }

/-- Model of `len([name for name in os.listdir(dir) if os.path.isfile(join(dir, name))])`:
the number of regular-file entries lying in `dir`. -/
def countFilesIn (fs : FileSystem) (dir : List String) : Nat :=
  (fs.files.filter fun f => f.1 = dir).length

/-- The constant `DatasetDiskManager._POSITIVE_DATA_FOLDER`. -/
def POSITIVE_DATA_FOLDER : String := "positive_samples"

/-- The constant `DatasetDiskManager._NEGATIVE_DATA_FOLDER`. -/
def NEGATIVE_DATA_FOLDER : String := "negative_samples"

/-- Errors raised by the Python code: `FileNotFoundError` from
`_set_up_folders` (the spec's `PathNotFoundError`), `TypeError` from
`save_sample` (the spec's `TypeMismatchError`), `IndexError` from
`list(...)[0]` on an empty field list in `_count_samples`. -/
inductive DSError where
  | pathNotFound
  | typeMismatch
  | indexError
deriving DecidableEq

/-- The state of a `DatasetDiskManager` instance. -/
structure DatasetDiskManager where
  dataset_path : List String
  folder_name : String
  sample : GenericSample
  negative_count : Nat
  positive_count : Nat
deriving DecidableEq

namespace DatasetDiskManager

/-- The directories `_set_up_folders` ensures, in the order the code
creates them: dataset root, collection folder, positive branch, negative
branch, then one directory per field under the positive branch and one per
field under the negative branch. -/
def setupPaths (dp : List String) (folder : String) (s : GenericSample) :
    List (List String) :=
  [dp, dp ++ [folder], dp ++ [folder, POSITIVE_DATA_FOLDER],
    dp ++ [folder, NEGATIVE_DATA_FOLDER]] ++
  (s.dataset_fields.map fun f => dp ++ [folder, POSITIVE_DATA_FOLDER, f]) ++
  (s.dataset_fields.map fun f => dp ++ [folder, NEGATIVE_DATA_FOLDER, f])

/-- Model of `DatasetDiskManager._set_up_folders`: raise `FileNotFoundError` when the
parent of the dataset path does not exist (before creating anything),
otherwise idempotently create the whole tree.  Returns the filesystem as it
stands when the method returns or raises. -/
def set_up_folders (dp : List String) (folder : String) (s : GenericSample)
    (fs : FileSystem) : FileSystem × Option DSError :=
  if existsPath fs (dirname dp) then
    (List.foldl mkdirIfAbsent fs (setupPaths dp folder s), none)
  else
    (fs, some DSError.pathNotFound)

/-- Model of `DatasetDiskManager._count_samples`: take the first declared field
(raising `IndexError` when there is none, modelled by `none`) and count the
regular files in that field's negative and positive directories, in that
order. -/
def count_samples (dp : List String) (folder : String) (s : GenericSample)
    (fs : FileSystem) : Option (Nat × Nat) :=
  match s.dataset_fields with
  | [] => none
  | field :: _ =>
    some (countFilesIn fs (dp ++ [folder, NEGATIVE_DATA_FOLDER, field]),
      countFilesIn fs (dp ++ [folder, POSITIVE_DATA_FOLDER, field]))

/-- Model of `DatasetDiskManager.__init__`: set up the folders, then initialize the
counters from disk.  Returns the filesystem as left by the constructor and
either the constructed instance or the error raised. -/
def init (dp : List String) (folder : String) (s : GenericSample)
    (fs : FileSystem) : FileSystem × Except DSError DatasetDiskManager :=
  match set_up_folders dp folder s fs with
  | (fs₁, some e) => (fs₁, Except.error e)
  | (fs₁, none) =>
    match count_samples dp folder s fs₁ with
    | none => (fs₁, Except.error DSError.indexError)
    | some (neg, pos) =>
      (fs₁, Except.ok ⟨dp, folder, s, neg, pos⟩)

/-- Model of `DatasetDiskManager.get_negative_samples_count`: returns the stored
negative counter; a pure accessor. -/
def get_negative_samples_count (m : DatasetDiskManager) : Nat :=
  m.negative_count

/-- Model of `DatasetDiskManager.get_positive_samples_count`: returns the stored
positive counter; a pure accessor. -/
def get_positive_samples_count (m : DatasetDiskManager) : Nat :=
  m.positive_count

/-- The data captured by the locked section of `save_sample`: the ordinal
`count` (the saved polarity's pre-increment counter), the branch folder
name, and the post-increment snapshots of both counters. -/
structure Reservation where
  count : Nat
  folder_pos_neg : String
  positive_count : Nat
  negative_count : Nat
deriving DecidableEq

/-- The body of `with self._lock:` in `save_sample`: read the saved
polarity's counter as the ordinal, increment it, and snapshot both
counters.  The lock makes this step atomic, so it is modelled as one
function on the manager state. -/
def reserve (m : DatasetDiskManager) (s : GenericSample) :
    Reservation × DatasetDiskManager :=
  if s.is_positive then
    let m' := { m with positive_count := m.positive_count + 1 }
    (⟨m.positive_count, POSITIVE_DATA_FOLDER, m'.positive_count,
      m'.negative_count⟩, m')
  else
    let m' := { m with negative_count := m.negative_count + 1 }
    (⟨m.negative_count, NEGATIVE_DATA_FOLDER, m'.positive_count,
      m'.negative_count⟩, m')

/-- The file name built in `save_all_fields`:
`('positive_' if positive else 'negative_') + field + '_' +
str(positive_count + negative_count) + '_(' + str(count) + ')'`. -/
def file_name_for (s : GenericSample) (field : String) (r : Reservation) :
    String :=
  (if s.is_positive then "positive_" else "negative_") ++ field ++ "_" ++
    natStr (r.positive_count + r.negative_count) ++ "_(" ++
    natStr r.count ++ ")"

/-- The write targets of `save_all_fields`: for each declared field, the
directory `join(dataset_path, folder_name, folder_pos_neg, field)` and the
file name above. -/
def save_all_fields (m : DatasetDiskManager) (s : GenericSample)
    (r : Reservation) : List (String × (List String × String)) :=
  s.dataset_fields.map fun field =>
    (field, (m.dataset_path ++ [m.folder_name, r.folder_pos_neg, field],
      file_name_for s field r))

/-- Outcome of one `save_sample` call: `typeError` models the `TypeError`
raised before the lock; `completed` carries the (directory, filename)
targets written, in field order; `writeFailed` models `sample.save_field`
raising partway: the targets written before the failure, and the field
whose write failed. -/
inductive SaveOutcome where
  | typeError
  | completed (written : List (List String × String))
  | writeFailed (written : List (List String × String)) (field : String)
deriving DecidableEq

/-- The per-field write loop of `save_all_fields`, parameterized over a
writer deciding whether `sample.save_field(field, path)` succeeds.
`done` accumulates the targets already written (in reverse). -/
def write_loop (writer : String → List String × String → Bool)
    (done : List (List String × String)) :
    List (String × (List String × String)) → SaveOutcome
  | [] => SaveOutcome.completed done.reverse
  | (field, target) :: rest =>
    if writer field target then write_loop writer (target :: done) rest
    else SaveOutcome.writeFailed done.reverse field

/-- Model of `DatasetDiskManager.save_sample`, parameterized over the field writer:
check `isinstance(sample, type(self._sample))` (raising `TypeError` before
touching the lock or the counters), then reserve under the lock, then run
the write loop outside the lock.  Returns the manager state after the call
and the outcome. -/
def save_sample_w (writer : String → List String × String → Bool)
    (m : DatasetDiskManager) (s : GenericSample) :
    DatasetDiskManager × SaveOutcome :=
  if m.sample.typeId ∈ s.ancestors then
    let (r, m') := reserve m s
    (m', write_loop writer [] (save_all_fields m s r))
  else
    (m, SaveOutcome.typeError)

/-- The function `save_sample` with every field write succeeding. -/
def save_sample (m : DatasetDiskManager) (s : GenericSample) :
    DatasetDiskManager × SaveOutcome :=
  save_sample_w (fun _ _ => true) m s

/-- The manager state after a sequence of (all-successful) saves. -/
def runSaves (m : DatasetDiskManager) : List GenericSample → DatasetDiskManager
  | [] => m
  | s :: ss => runSaves (save_sample m s).1 ss

/-- The `(polarity, ordinal)` reservations taken by a sequence of saves:
the polarity of each sample together with its own branch's pre-increment
counter at the moment of its locked section. -/
def runReservations (m : DatasetDiskManager) :
    List GenericSample → List (Bool × Nat)
  | [] => []
  | s :: ss =>
    (s.is_positive,
      if s.is_positive then m.positive_count else m.negative_count) ::
      runReservations (save_sample m s).1 ss

/-- All file names generated by a sequence of saves, in order: the names of
the targets each save actually wrote (none when the save raised). -/
def runNames (m : DatasetDiskManager) : List GenericSample → List String
  | [] => []
  | s :: ss =>
    (match (save_sample m s).2 with
      | SaveOutcome.completed written => written.map fun e => e.2
      | _ => []) ++ runNames (save_sample m s).1 ss

end DatasetDiskManager

/-- The naming scheme `{polarity}_{field}_{total}_({ordinal})` with its four
components made explicit; `DatasetDiskManager.file_name_for` is this scheme
applied to a sample and a reservation. -/
def mkNameStr (b : Bool) (f : String) (total ordinal : Nat) : String :=
  (if b then "positive_" else "negative_") ++ f ++ "_" ++ natStr total ++
    "_(" ++ natStr ordinal ++ ")"

/-- Concrete positive reference sample with fields `{"a", "b"}`, used as
witness input. -/
def refAB : GenericSample :=
  ⟨1, [1], true, ["a", "b"]⟩

/-- Concrete negative sample of the same type as `refAB`. -/
def negAB : GenericSample :=
  ⟨1, [1], false, ["a", "b"]⟩

/-- A sample whose concrete type (tag 2) is a strict subclass of `refAB`'s
type (tag 1): it is an instance of both classes. -/
def childAB : GenericSample :=
  ⟨2, [2, 1], true, ["a", "b"]⟩

/-- A sample of an unrelated type (tag 7), an instance of no class of
`refAB`. -/
def otherAB : GenericSample :=
  ⟨7, [7], true, ["a", "b"]⟩

/-- A fresh collection over `refAB`: both counters zero. -/
def freshM : DatasetDiskManager :=
  ⟨["dataset"], "folder", refAB, 0, 0⟩

/-- A filesystem containing only the root directory `[]` (the parent of
path `["dataset"]`). -/
def emptyFS : FileSystem :=
  ⟨[[]], []⟩

/-! ### Properties of the decimal rendering -/

theorem natCharsAux_fuel : ∀ f₁ f₂ n, n < f₁ → n < f₂ →
    natCharsAux f₁ n = natCharsAux f₂ n := by
  intro f₁
  induction f₁ with
  | zero => intro f₂ n h; omega
  | succ f ih =>
    intro f₂ n h₁ h₂
    cases f₂ with
    | zero => omega
    | succ g =>
      simp only [natCharsAux]
      by_cases hn : n < 10
      · simp [hn]
      · have hd : n / 10 < n := Nat.div_lt_self (by omega) (by omega)
        simp only [if_neg hn]
        rw [ih g (n / 10) (by omega) (by omega)]

theorem natChars_eq (n : Nat) :
    natChars n = if n < 10 then [Nat.digitChar n]
      else natChars (n / 10) ++ [Nat.digitChar (n % 10)] := by
  unfold natChars
  rw [natCharsAux]
  by_cases hn : n < 10
  · simp [hn]
  · have hd : n / 10 < n := Nat.div_lt_self (by omega) (by omega)
    simp only [if_neg hn]
    rw [natCharsAux_fuel n (n / 10 + 1) (n / 10) (by omega) (by omega)]

theorem natChars_ne_nil (n : Nat) : natChars n ≠ [] := by
  rw [natChars_eq]
  by_cases hn : n < 10 <;> simp [hn]

theorem digitChar_inj_lt :
    ∀ a, a < 10 → ∀ b, b < 10 → Nat.digitChar a = Nat.digitChar b → a = b := by
  decide

theorem natChars_mem_digit (n : Nat) :
    ∀ c ∈ natChars n, ∃ d, d < 10 ∧ c = Nat.digitChar d := by
  induction n using Nat.strong_induction_on with
  | _ n ih =>
    intro c hc
    rw [natChars_eq] at hc
    by_cases hn : n < 10
    · simp only [if_pos hn, List.mem_singleton] at hc
      exact ⟨n, hn, hc⟩
    · simp only [if_neg hn, List.mem_append, List.mem_singleton] at hc
      rcases hc with hc | hc
      · exact ih (n / 10) (Nat.div_lt_self (by omega) (by omega)) c hc
      · exact ⟨n % 10, Nat.mod_lt _ (by omega), hc⟩

theorem natChars_injective : ∀ m n, natChars m = natChars n → m = n := by
  intro m
  induction m using Nat.strong_induction_on with
  | _ m ih =>
    intro n h
    rw [natChars_eq m, natChars_eq n] at h
    by_cases hm : m < 10 <;> by_cases hn : n < 10
    · simp only [if_pos hm, if_pos hn, List.cons.injEq] at h
      exact digitChar_inj_lt m hm n hn h.1
    · exfalso
      simp only [if_pos hm, if_neg hn] at h
      have hlen := congrArg List.length h
      simp only [List.length_singleton, List.length_append, List.length_cons,
        List.length_nil] at hlen
      have h0 : (natChars (n / 10)).length = 0 := by omega
      exact natChars_ne_nil (n / 10) (List.eq_nil_of_length_eq_zero h0)
    · exfalso
      simp only [if_neg hm, if_pos hn] at h
      have hlen := congrArg List.length h
      simp only [List.length_singleton, List.length_append, List.length_cons,
        List.length_nil] at hlen
      have h0 : (natChars (m / 10)).length = 0 := by omega
      exact natChars_ne_nil (m / 10) (List.eq_nil_of_length_eq_zero h0)
    · simp only [if_neg hm, if_neg hn] at h
      have h₂ := List.append_inj' h (by rfl)
      have hdiv : m / 10 = n / 10 :=
        ih (m / 10) (Nat.div_lt_self (by omega) (by omega)) (n / 10) h₂.1
      have hmod : m % 10 = n % 10 := by
        have h₃ := h₂.2
        simp only [List.cons.injEq] at h₃
        exact digitChar_inj_lt _ (Nat.mod_lt _ (by omega)) _
          (Nat.mod_lt _ (by omega)) h₃.1
      omega

theorem natStr_injective : ∀ m n, natStr m = natStr n → m = n := by
  intro m n h
  exact natChars_injective m n (congrArg String.data h)

theorem natChars_not_mem_lparen (n : Nat) : '(' ∉ natChars n := by
  intro hc
  obtain ⟨d, hd, he⟩ := natChars_mem_digit n '(' hc
  revert he
  revert hd
  revert d
  decide

theorem natChars_not_mem_underscore (n : Nat) : '_' ∉ natChars n := by
  intro hc
  obtain ⟨d, hd, he⟩ := natChars_mem_digit n '_' hc
  revert he
  revert hd
  revert d
  decide

/-! ### Generic helper lemmas -/

/-- Splitting at the first occurrence of a separator character is
unambiguous: if neither left part contains the separator, equal
concatenations have equal parts. -/
theorem append_sep_inj {c : Char} :
    ∀ {a b t₁ t₂ : List Char}, c ∉ a → c ∉ b →
      a ++ c :: t₁ = b ++ c :: t₂ → a = b ∧ t₁ = t₂ := by
  intro a
  induction a with
  | nil =>
    intro b t₁ t₂ _ hb h
    cases b with
    | nil => simpa using h
    | cons x xs =>
      simp only [List.nil_append, List.cons_append, List.cons.injEq] at h
      exact absurd (h.1 ▸ List.mem_cons_self x xs) (by simp [← h.1] at hb)
  | cons x xs ih =>
    intro b t₁ t₂ ha hb h
    cases b with
    | nil =>
      simp only [List.cons_append, List.nil_append, List.cons.injEq] at h
      exact absurd (List.mem_cons_self x xs) (by simp [h.1] at ha)
    | cons y ys =>
      simp only [List.cons_append, List.cons.injEq] at h
      have := ih (fun hm => ha (List.mem_cons_of_mem x hm))
        (fun hm => hb (List.mem_cons_of_mem y hm)) h.2
      exact ⟨by rw [h.1, this.1], this.2⟩

/-- A list of pairs tagged by a `Bool` has no duplicates when the values in
each tag class have no duplicates. -/
theorem nodup_of_tagged_parts :
    ∀ l : List (Bool × Nat),
      (l.filterMap fun p => if p.1 then some p.2 else none).Nodup →
      (l.filterMap fun p => if p.1 then none else some p.2).Nodup →
      l.Nodup := by
  intro l
  induction l with
  | nil => intro _ _; exact List.nodup_nil
  | cons p rest ih =>
    intro hp hn
    have mem_filterMap_of_mem : ∀ q : Bool × Nat, q ∈ rest →
        (q.1 = true → q.2 ∈ rest.filterMap fun p => if p.1 then some p.2 else none) ∧
        (q.1 = false → q.2 ∈ rest.filterMap fun p => if p.1 then none else some p.2) := by
      intro q hq
      constructor
      · intro hq1
        exact List.mem_filterMap.mpr ⟨q, hq, by simp [hq1]⟩
      · intro hq1
        exact List.mem_filterMap.mpr ⟨q, hq, by simp [hq1]⟩
    rcases hb : p.1 with _ | _
    · rw [List.filterMap_cons] at hn
      simp only [hb] at hn
      rw [if_neg (by simp)] at hn
      have hn' := List.nodup_cons.mp hn
      refine List.nodup_cons.mpr ⟨?_, ih (by simpa [hb] using hp) hn'.2⟩
      intro hmem
      exact hn'.1 ((mem_filterMap_of_mem p hmem).2 hb)
    · rw [List.filterMap_cons] at hp
      simp only [hb] at hp
      rw [if_pos trivial] at hp
      have hp' := List.nodup_cons.mp hp
      refine List.nodup_cons.mpr ⟨?_, ih hp'.2 (by simpa [hb] using hn)⟩
      intro hmem
      exact hp'.1 ((mem_filterMap_of_mem p hmem).1 hb)

namespace DatasetDiskManager

/-! ### Behavior of the write loop -/

/-- With a writer that always succeeds, the write loop completes and writes
every target in order. -/
theorem write_loop_true (entries : List (String × (List String × String))) :
    ∀ done, write_loop (fun _ _ => true) done entries =
      SaveOutcome.completed (done.reverse ++ entries.map fun e => e.2) := by
  induction entries with
  | nil => intro done; simp [write_loop]
  | cons e rest ih =>
    intro done
    obtain ⟨field, target⟩ := e
    simp only [write_loop, if_pos rfl, ih (target :: done), List.reverse_cons,
      List.map_cons, if_true]
    simp

/-- The write loop never reports a type error. -/
theorem write_loop_ne_typeError
    (writer : String → List String × String → Bool)
    (entries : List (String × (List String × String))) :
    ∀ done, write_loop writer done entries ≠ SaveOutcome.typeError := by
  induction entries with
  | nil => intro done; simp [write_loop]
  | cons e rest ih =>
    intro done
    obtain ⟨field, target⟩ := e
    simp only [write_loop]
    by_cases hw : writer field (target)
    · simpa [hw] using ih (target :: done)
    · simp [hw]

/-! ### Bookkeeping facts about `reserve` and `save_sample` -/

theorem reserve_positive_count (m : DatasetDiskManager) (s : GenericSample) :
    (reserve m s).2.positive_count =
      if s.is_positive then m.positive_count + 1 else m.positive_count := by
  rcases h : s.is_positive with _ | _ <;> simp [reserve, h]

theorem reserve_negative_count (m : DatasetDiskManager) (s : GenericSample) :
    (reserve m s).2.negative_count =
      if s.is_positive then m.negative_count else m.negative_count + 1 := by
  rcases h : s.is_positive with _ | _ <;> simp [reserve, h]

theorem reserve_sample (m : DatasetDiskManager) (s : GenericSample) :
    (reserve m s).2.sample = m.sample := by
  rcases h : s.is_positive with _ | _ <;> simp [reserve, h]

theorem reserve_fst (m : DatasetDiskManager) (s : GenericSample) :
    (reserve m s).1 =
      ⟨if s.is_positive then m.positive_count else m.negative_count,
        if s.is_positive then POSITIVE_DATA_FOLDER else NEGATIVE_DATA_FOLDER,
        if s.is_positive then m.positive_count + 1 else m.positive_count,
        if s.is_positive then m.negative_count else m.negative_count + 1⟩ := by
  rcases h : s.is_positive with _ | _ <;> simp [reserve, h]

theorem save_sample_w_fst (writer : String → List String × String → Bool)
    (m : DatasetDiskManager) (s : GenericSample)
    (h : m.sample.typeId ∈ s.ancestors) :
    (save_sample_w writer m s).1 = (reserve m s).2 := by
  simp [save_sample_w, h]

theorem save_sample_w_fst_sample
    (writer : String → List String × String → Bool)
    (m : DatasetDiskManager) (s : GenericSample) :
    (save_sample_w writer m s).1.sample = m.sample := by
  by_cases h : m.sample.typeId ∈ s.ancestors
  · rw [save_sample_w_fst writer m s h, reserve_sample]
  · simp [save_sample_w, h]

theorem save_sample_fst_sample (m : DatasetDiskManager) (s : GenericSample) :
    (save_sample m s).1.sample = m.sample :=
  save_sample_w_fst_sample _ m s

theorem runSaves_sample (m : DatasetDiskManager) (ss : List GenericSample) :
    (runSaves m ss).sample = m.sample := by
  induction ss generalizing m with
  | nil => rfl
  | cons s rest ih =>
    rw [runSaves, ih, save_sample_fst_sample]

theorem save_sample_positive_count (m : DatasetDiskManager)
    (s : GenericSample) (h : m.sample.typeId ∈ s.ancestors) :
    (save_sample m s).1.positive_count =
      if s.is_positive then m.positive_count + 1 else m.positive_count := by
  rw [save_sample, save_sample_w_fst _ m s h, reserve_positive_count]

theorem save_sample_negative_count (m : DatasetDiskManager)
    (s : GenericSample) (h : m.sample.typeId ∈ s.ancestors) :
    (save_sample m s).1.negative_count =
      if s.is_positive then m.negative_count else m.negative_count + 1 := by
  rw [save_sample, save_sample_w_fst _ m s h, reserve_negative_count]

theorem runSaves_positive_count (ss : List GenericSample)
    (m : DatasetDiskManager) (h : ∀ t ∈ ss, m.sample.typeId ∈ t.ancestors) :
    (runSaves m ss).positive_count =
      m.positive_count + (ss.filter fun t => t.is_positive).length := by
  induction ss generalizing m with
  | nil => simp [runSaves]
  | cons s rest ih =>
    rw [runSaves]
    have hs := h s (List.mem_cons_self s rest)
    have hrest : ∀ t ∈ rest, (save_sample m s).1.sample.typeId ∈ t.ancestors := by
      intro t ht
      rw [save_sample_fst_sample]
      exact h t (List.mem_cons_of_mem s ht)
    rw [ih (save_sample m s).1 hrest, save_sample_positive_count m s hs]
    rcases hb : s.is_positive with _ | _ <;> simp [hb, List.filter_cons]
    all_goals omega

theorem runSaves_negative_count (ss : List GenericSample)
    (m : DatasetDiskManager) (h : ∀ t ∈ ss, m.sample.typeId ∈ t.ancestors) :
    (runSaves m ss).negative_count =
      m.negative_count + (ss.filter fun t => !t.is_positive).length := by
  induction ss generalizing m with
  | nil => simp [runSaves]
  | cons s rest ih =>
    rw [runSaves]
    have hs := h s (List.mem_cons_self s rest)
    have hrest : ∀ t ∈ rest, (save_sample m s).1.sample.typeId ∈ t.ancestors := by
      intro t ht
      rw [save_sample_fst_sample]
      exact h t (List.mem_cons_of_mem s ht)
    rw [ih (save_sample m s).1 hrest, save_sample_negative_count m s hs]
    rcases hb : s.is_positive with _ | _ <;> simp [hb, List.filter_cons]
    all_goals omega

theorem save_sample_w_positive_count_le
    (writer : String → List String × String → Bool)
    (m : DatasetDiskManager) (s : GenericSample) :
    m.positive_count ≤ (save_sample_w writer m s).1.positive_count := by
  by_cases h : m.sample.typeId ∈ s.ancestors
  · rw [save_sample_w_fst _ m s h, reserve_positive_count]
    rcases s.is_positive with _ | _ <;> simp
  · simp [save_sample_w, h]

theorem save_sample_w_negative_count_le
    (writer : String → List String × String → Bool)
    (m : DatasetDiskManager) (s : GenericSample) :
    m.negative_count ≤ (save_sample_w writer m s).1.negative_count := by
  by_cases h : m.sample.typeId ∈ s.ancestors
  · rw [save_sample_w_fst _ m s h, reserve_negative_count]
    rcases s.is_positive with _ | _ <;> simp
  · simp [save_sample_w, h]

theorem runSaves_positive_count_le (ss : List GenericSample)
    (m : DatasetDiskManager) :
    m.positive_count ≤ (runSaves m ss).positive_count := by
  induction ss generalizing m with
  | nil => exact Nat.le_refl _
  | cons s rest ih =>
    exact Nat.le_trans (save_sample_w_positive_count_le _ m s)
      (ih (save_sample m s).1)

theorem runSaves_negative_count_le (ss : List GenericSample)
    (m : DatasetDiskManager) :
    m.negative_count ≤ (runSaves m ss).negative_count := by
  induction ss generalizing m with
  | nil => exact Nat.le_refl _
  | cons s rest ih =>
    exact Nat.le_trans (save_sample_w_negative_count_le _ m s)
      (ih (save_sample m s).1)

theorem runSaves_append (m : DatasetDiskManager)
    (ss₁ ss₂ : List GenericSample) :
    runSaves m (ss₁ ++ ss₂) = runSaves (runSaves m ss₁) ss₂ := by
  induction ss₁ generalizing m with
  | nil => rfl
  | cons s rest ih => rw [List.cons_append, runSaves, runSaves, ih]

end DatasetDiskManager

/-! ### Injectivity of the file-naming scheme -/

theorem mkNameStr_data_rev (b : Bool) (f : String) (t o : Nat) :
    (mkNameStr b f t o).data.reverse =
      ')' :: ((natChars o).reverse ++ '(' :: '_' :: ((natChars t).reverse ++
        '_' :: (f.data.reverse ++
          (if b then "positive_" else "negative_").data.reverse))) := by
  cases b <;>
    simp [mkNameStr, String.data_append, natStr, List.reverse_append]

theorem mkNameStr_inj {b b' : Bool} {f f' : String} {t t' o o' : Nat}
    (h : mkNameStr b f t o = mkNameStr b' f' t' o') :
    b = b' ∧ f = f' ∧ t = t' ∧ o = o' := by
  have hd := congrArg (fun x => x.data.reverse) h
  simp only [mkNameStr_data_rev] at hd
  rw [List.cons.injEq] at hd
  obtain ⟨-, hd⟩ := hd
  obtain ⟨ho, hd⟩ := append_sep_inj
    (by simpa using natChars_not_mem_lparen o)
    (by simpa using natChars_not_mem_lparen o') hd
  rw [List.cons.injEq] at hd
  obtain ⟨-, hd⟩ := hd
  obtain ⟨ht, hd⟩ := append_sep_inj
    (by simpa using natChars_not_mem_underscore t)
    (by simpa using natChars_not_mem_underscore t') hd
  obtain ⟨hf, hpol⟩ := List.append_inj' hd (by cases b <;> cases b' <;> rfl)
  refine ⟨?_, ?_, ?_, ?_⟩
  · cases b <;> cases b'
    · rfl
    · exact absurd hpol (by decide)
    · exact absurd hpol (by decide)
    · rfl
  · exact String.ext (List.reverse_injective hf)
  · exact natChars_injective t t' (List.reverse_injective ht)
  · exact natChars_injective o o' (List.reverse_injective ho)

namespace DatasetDiskManager

theorem file_name_for_eq_mkNameStr (s : GenericSample) (f : String)
    (r : Reservation) :
    file_name_for s f r =
      mkNameStr s.is_positive f (r.positive_count + r.negative_count)
        r.count := rfl

/-! ### The reservation trace -/

theorem runReservations_pos_ordinals (ss : List GenericSample)
    (m : DatasetDiskManager) (h : ∀ t ∈ ss, m.sample.typeId ∈ t.ancestors) :
    (runReservations m ss).filterMap
        (fun p => if p.1 then some p.2 else none) =
      (List.range (ss.filter fun t => t.is_positive).length).map
        (fun i => m.positive_count + i) := by
  induction ss generalizing m with
  | nil => simp [runReservations]
  | cons s rest ih =>
    have hs := h s (List.mem_cons_self s rest)
    have hrest : ∀ t ∈ rest, (save_sample m s).1.sample.typeId ∈ t.ancestors := by
      intro t ht
      rw [save_sample_fst_sample]
      exact h t (List.mem_cons_of_mem s ht)
    rw [runReservations, List.filterMap_cons]
    rcases hb : s.is_positive with _ | _
    · simp only [hb]
      rw [if_neg (by simp), ih (save_sample m s).1 hrest,
        save_sample_positive_count m s hs]
      simp [hb, List.filter_cons]
    · simp only [hb]
      rw [if_pos trivial, ih (save_sample m s).1 hrest,
        save_sample_positive_count m s hs]
      simp only [hb, if_pos trivial, List.filter_cons, List.length_cons]
      rw [List.range_succ_eq_map]
      simp only [List.map_cons, List.map_map, Nat.add_zero]
      refine congrArg (List.cons m.positive_count) ?_
      refine List.map_congr_left ?_
      intro i hi
      simp [Function.comp]
      omega

theorem runReservations_neg_ordinals (ss : List GenericSample)
    (m : DatasetDiskManager) (h : ∀ t ∈ ss, m.sample.typeId ∈ t.ancestors) :
    (runReservations m ss).filterMap
        (fun p => if p.1 then none else some p.2) =
      (List.range (ss.filter fun t => !t.is_positive).length).map
        (fun i => m.negative_count + i) := by
  induction ss generalizing m with
  | nil => simp [runReservations]
  | cons s rest ih =>
    have hs := h s (List.mem_cons_self s rest)
    have hrest : ∀ t ∈ rest, (save_sample m s).1.sample.typeId ∈ t.ancestors := by
      intro t ht
      rw [save_sample_fst_sample]
      exact h t (List.mem_cons_of_mem s ht)
    rw [runReservations, List.filterMap_cons]
    rcases hb : s.is_positive with _ | _
    · simp only [hb]
      rw [if_neg (by simp), ih (save_sample m s).1 hrest,
        save_sample_negative_count m s hs]
      simp only [hb, Bool.false_eq_true, if_neg, List.filter_cons,
        Bool.not_false, ite_false]
      rw [if_pos trivial, List.length_cons, List.range_succ_eq_map]
      simp only [List.map_cons, List.map_map, Nat.add_zero]
      refine congrArg (List.cons m.negative_count) ?_
      refine List.map_congr_left ?_
      intro i hi
      simp [Function.comp]
      omega
    · simp only [hb]
      rw [if_pos trivial, ih (save_sample m s).1 hrest,
        save_sample_negative_count m s hs]
      simp [hb, List.filter_cons]

theorem runReservations_nodup (ss : List GenericSample)
    (m : DatasetDiskManager) (h : ∀ t ∈ ss, m.sample.typeId ∈ t.ancestors) :
    (runReservations m ss).Nodup := by
  refine nodup_of_tagged_parts _ ?_ ?_
  · rw [runReservations_pos_ordinals ss m h]
    exact (List.nodup_range _).map fun a b hab => by omega
  · rw [runReservations_neg_ordinals ss m h]
    exact (List.nodup_range _).map fun a b hab => by omega

theorem runReservations_ordinal_lb (ss : List GenericSample)
    (m : DatasetDiskManager) (p : Bool × Nat)
    (hp : p ∈ runReservations m ss) :
    (p.1 = true → m.positive_count ≤ p.2) ∧
      (p.1 = false → m.negative_count ≤ p.2) := by
  induction ss generalizing m with
  | nil => simp [runReservations] at hp
  | cons s rest ih =>
    rw [runReservations, List.mem_cons] at hp
    rcases hp with hp | hp
    · subst hp
      rcases hb : s.is_positive with _ | _ <;> simp [hb]
    · have hle := ih (save_sample m s).1 hp
      exact ⟨fun h1 =>
          Nat.le_trans (save_sample_w_positive_count_le _ m s) (hle.1 h1),
        fun h1 =>
          Nat.le_trans (save_sample_w_negative_count_le _ m s) (hle.2 h1)⟩

/-! ### The generated file names -/

theorem save_all_fields_names (m : DatasetDiskManager) (s : GenericSample)
    (r : Reservation) :
    (save_all_fields m s r).map (fun e => e.2.2) =
      s.dataset_fields.map (fun f =>
        mkNameStr s.is_positive f (r.positive_count + r.negative_count)
          r.count) := by
  rw [save_all_fields, List.map_map]
  rfl

theorem save_sample_fst (m : DatasetDiskManager) (s : GenericSample)
    (h : m.sample.typeId ∈ s.ancestors) :
    (save_sample m s).1 = (reserve m s).2 :=
  save_sample_w_fst _ m s h

theorem save_sample_eq (m : DatasetDiskManager) (s : GenericSample)
    (h : m.sample.typeId ∈ s.ancestors) :
    save_sample m s = ((reserve m s).2, SaveOutcome.completed
      ((save_all_fields m s (reserve m s).1).map fun e => e.2)) := by
  rw [save_sample, save_sample_w, if_pos h]
  simp [write_loop_true]

theorem save_sample_not_instance (m : DatasetDiskManager) (s : GenericSample)
    (h : m.sample.typeId ∉ s.ancestors) :
    save_sample m s = (m, SaveOutcome.typeError) := by
  rw [save_sample, save_sample_w, if_neg h]

theorem mem_runNames (ss : List GenericSample) (m : DatasetDiskManager)
    (name : String) (hn : name ∈ runNames m ss) :
    ∃ b o t f, name = mkNameStr b f t o ∧ (b, o) ∈ runReservations m ss := by
  induction ss generalizing m with
  | nil => simp [runNames] at hn
  | cons s rest ih =>
    rw [runNames, List.mem_append] at hn
    rcases hn with hn | hn
    · by_cases hs : m.sample.typeId ∈ s.ancestors
      · rw [save_sample_eq m s hs] at hn
        simp only [List.map_map] at hn
        rw [show ((fun e : List String × String => e.2) ∘
            (fun e : String × (List String × String) => e.2)) =
            (fun e : String × (List String × String) => e.2.2) from rfl] at hn
        rw [save_all_fields_names, List.mem_map] at hn
        obtain ⟨f, hf, hname⟩ := hn
        refine ⟨s.is_positive,
          (reserve m s).1.count, (reserve m s).1.positive_count +
            (reserve m s).1.negative_count, f, hname.symm, ?_⟩
        rw [runReservations, List.mem_cons]
        left
        rw [reserve_fst]
      · rw [save_sample_not_instance m s hs] at hn
        simp at hn
    · obtain ⟨b, o, t, f, hname, hmem⟩ := ih (save_sample m s).1 hn
      exact ⟨b, o, t, f, hname,
        by rw [runReservations, List.mem_cons]; right; exact hmem⟩

theorem runNames_head_tail_disjoint (m : DatasetDiskManager)
    (s : GenericSample) (rest : List GenericSample) (name : String)
    (hs : m.sample.typeId ∈ s.ancestors)
    (hhead : name ∈ (save_all_fields m s (reserve m s).1).map fun e => e.2.2)
    (htail : name ∈ runNames (save_sample m s).1 rest) : False := by
  rw [save_all_fields_names, List.mem_map] at hhead
  obtain ⟨f, hf, hname⟩ := hhead
  obtain ⟨b, o, t, f', hname', hmem⟩ :=
    mem_runNames rest (save_sample m s).1 name htail
  rw [← hname] at hname'
  obtain ⟨hb, -, -, ho⟩ := mkNameStr_inj hname'
  have hlb := runReservations_ordinal_lb rest (save_sample m s).1 (b, o) hmem
  rw [reserve_fst] at ho
  rcases hp : s.is_positive with _ | _
  · have hcnt := save_sample_negative_count m s hs
    rw [if_neg (by simp [hp])] at hcnt
    have h1 := hlb.2 (by rw [← hb, hp])
    rw [hcnt] at h1
    rw [hp] at ho
    simp only [Bool.false_eq_true, if_neg, ite_false] at ho
    omega
  · have hcnt := save_sample_positive_count m s hs
    rw [if_pos (by simp [hp])] at hcnt
    have h1 := hlb.1 (by rw [← hb, hp])
    rw [hcnt] at h1
    rw [hp] at ho
    simp only [ite_true] at ho
    omega

theorem runNames_nodup (ss : List GenericSample) (m : DatasetDiskManager)
    (hty : ∀ t ∈ ss, m.sample.typeId ∈ t.ancestors)
    (hfld : ∀ t ∈ ss, t.dataset_fields.Nodup) :
    (runNames m ss).Nodup := by
  induction ss generalizing m with
  | nil => simp [runNames]
  | cons s rest ih =>
    have hs := hty s (List.mem_cons_self s rest)
    have hrest : ∀ t ∈ rest, (save_sample m s).1.sample.typeId ∈ t.ancestors := by
      intro t ht
      rw [save_sample_fst_sample]
      exact hty t (List.mem_cons_of_mem s ht)
    have hrestf : ∀ t ∈ rest, t.dataset_fields.Nodup := fun t ht =>
      hfld t (List.mem_cons_of_mem s ht)
    rw [runNames, save_sample_eq m s hs]
    simp only [List.map_map]
    rw [show ((fun e : List String × String => e.2) ∘
        (fun e : String × (List String × String) => e.2)) =
        (fun e : String × (List String × String) => e.2.2) from rfl,
      ← save_sample_fst m s hs]
    refine List.Nodup.append ?_ (ih (save_sample m s).1 hrest hrestf) ?_
    · rw [save_all_fields_names]
      refine (hfld s (List.mem_cons_self s rest)).map ?_
      intro a b hab
      exact (mkNameStr_inj hab).2.1
    · intro a ha hb
      exact runNames_head_tail_disjoint m s rest a hs ha hb

end DatasetDiskManager

/-! ### Filesystem lemmas for directory setup -/

theorem existsPath_mkdirIfAbsent_mono (fs : FileSystem) (p q : List String)
    (h : existsPath fs q = true) :
    existsPath (mkdirIfAbsent fs p) q = true := by
  rw [mkdirIfAbsent]
  by_cases hp : existsPath fs p
  · rwa [if_pos hp]
  · rw [if_neg hp]
    rw [existsPath] at h ⊢
    simp only [List.contains_cons] at *
    rcases Bool.or_eq_true_iff.mp h with h1 | h1
    · exact Bool.or_eq_true_iff.mpr (Or.inl (by simp [h1]; right; simpa using h1))
    · exact Bool.or_eq_true_iff.mpr (Or.inr h1)

theorem existsPath_mkdirIfAbsent_self (fs : FileSystem) (p : List String) :
    existsPath (mkdirIfAbsent fs p) p = true := by
  rw [mkdirIfAbsent]
  by_cases hp : existsPath fs p
  · rwa [if_pos hp]
  · rw [if_neg hp, existsPath]
    simp

theorem mkdirIfAbsent_files (fs : FileSystem) (p : List String) :
    (mkdirIfAbsent fs p).files = fs.files := by
  rw [mkdirIfAbsent]
  by_cases hp : existsPath fs p
  · rw [if_pos hp]
  · rw [if_neg hp]

theorem foldl_mkdirIfAbsent_mono (ps : List (List String)) (fs : FileSystem)
    (q : List String) (h : existsPath fs q = true) :
    existsPath (List.foldl mkdirIfAbsent fs ps) q = true := by
  induction ps generalizing fs with
  | nil => exact h
  | cons p rest ih =>
    exact ih (mkdirIfAbsent fs p) (existsPath_mkdirIfAbsent_mono fs p q h)

theorem foldl_mkdirIfAbsent_all (ps : List (List String)) (fs : FileSystem) :
    ∀ p ∈ ps, existsPath (List.foldl mkdirIfAbsent fs ps) p = true := by
  induction ps generalizing fs with
  | nil => intro p hp; simp at hp
  | cons q rest ih =>
    intro p hp
    rcases List.mem_cons.mp hp with hp | hp
    · subst hp
      exact foldl_mkdirIfAbsent_mono rest (mkdirIfAbsent fs p) p
        (existsPath_mkdirIfAbsent_self fs p)
    · exact ih (mkdirIfAbsent fs q) p hp

theorem foldl_mkdirIfAbsent_noop (ps : List (List String)) (fs : FileSystem)
    (h : ∀ p ∈ ps, existsPath fs p = true) :
    List.foldl mkdirIfAbsent fs ps = fs := by
  induction ps generalizing fs with
  | nil => rfl
  | cons q rest ih =>
    rw [List.foldl_cons, mkdirIfAbsent, if_pos (h q (List.mem_cons_self q rest))]
    exact ih fs fun p hp => h p (List.mem_cons_of_mem q hp)

theorem foldl_mkdirIfAbsent_files (ps : List (List String)) (fs : FileSystem) :
    (List.foldl mkdirIfAbsent fs ps).files = fs.files := by
  induction ps generalizing fs with
  | nil => rfl
  | cons q rest ih =>
    rw [List.foldl_cons, ih (mkdirIfAbsent fs q), mkdirIfAbsent_files]

/-! ### Claim theorems -/

open DatasetDiskManager

/-- C1: For every save of a sample, one file is requested per declared
field, written into that field's directory under the branch matching the
sample's polarity, with file name exactly `{polarity}_{field}_{total}_({ordinal})`
where `total` is the post-increment sum `positive_count + negative_count`
and `ordinal` is the pre-increment count of the sample's own polarity. -/
theorem save_sample_one_file_per_field (m : DatasetDiskManager)
    (s : GenericSample) (h : m.sample.typeId ∈ s.ancestors) :
    save_sample m s = ((reserve m s).2, SaveOutcome.completed
      (s.dataset_fields.map fun f =>
        (m.dataset_path ++ [m.folder_name,
          if s.is_positive then POSITIVE_DATA_FOLDER else NEGATIVE_DATA_FOLDER,
          f],
         mkNameStr s.is_positive f (m.positive_count + m.negative_count + 1)
           (if s.is_positive then m.positive_count else m.negative_count)))) := by
  rw [save_sample_eq m s h]
  apply congrArg (Prod.mk (reserve m s).2)
  apply congrArg SaveOutcome.completed
  rw [save_all_fields, List.map_map]
  refine List.map_congr_left ?_
  intro f hf
  rcases hb : s.is_positive with _ | _
  · simp only [Function.comp, reserve_fst, hb, Bool.false_eq_true, ite_false,
      file_name_for_eq_mkNameStr]
    rfl
  · simp only [Function.comp, reserve_fst, hb, ite_true,
      file_name_for_eq_mkNameStr]
    rw [show m.positive_count + 1 + m.negative_count =
      m.positive_count + m.negative_count + 1 from by omega]

/-- Witness for C1: on a fresh collection over fields `{"a","b"}`, the first
positive save produces `positive_a_1_(0)` and `positive_b_1_(0)` in the
positive field directories, and the following negative save produces
`negative_a_2_(0)` and `negative_b_2_(0)`. -/
theorem save_sample_one_file_per_field_witness :
    (save_sample freshM refAB).2 = SaveOutcome.completed
      [(["dataset", "folder", "positive_samples", "a"], "positive_a_1_(0)"),
       (["dataset", "folder", "positive_samples", "b"], "positive_b_1_(0)")] ∧
    (save_sample (save_sample freshM refAB).1 negAB).2 =
      SaveOutcome.completed
      [(["dataset", "folder", "negative_samples", "a"], "negative_a_2_(0)"),
       (["dataset", "folder", "negative_samples", "b"], "negative_b_2_(0)")] := by
  have h1 := save_sample_one_file_per_field freshM refAB (by decide)
  have h2 := save_sample_one_file_per_field (save_sample freshM refAB).1 negAB
    (by decide)
  exact ⟨by rw [h1]; rfl, by rw [h2]; rfl⟩

/-- C2: For every sequence of saves on a collection instance, no two saves
reserve the same `(polarity, ordinal)` pair; within each polarity the
reserved ordinals are exactly `0, 1, ..., k-1` above the initial count,
and no two generated file names collide. -/
theorem saves_reserve_unique_ordinals (m : DatasetDiskManager)
    (ss : List GenericSample)
    (hty : ∀ t ∈ ss, m.sample.typeId ∈ t.ancestors)
    (hfld : ∀ t ∈ ss, t.dataset_fields.Nodup) :
    (runReservations m ss).Nodup ∧
    ((runReservations m ss).filterMap
        (fun p => if p.1 then some p.2 else none) =
      (List.range (ss.filter fun t => t.is_positive).length).map
        (fun i => m.positive_count + i)) ∧
    ((runReservations m ss).filterMap
        (fun p => if p.1 then none else some p.2) =
      (List.range (ss.filter fun t => !t.is_positive).length).map
        (fun i => m.negative_count + i)) ∧
    (runNames m ss).Nodup :=
  ⟨runReservations_nodup ss m hty,
    runReservations_pos_ordinals ss m hty,
    runReservations_neg_ordinals ss m hty,
    runNames_nodup ss m hty hfld⟩

/-- Witness for C2: three saves (positive, negative, positive) on a fresh
collection reserve the pairs `(+,0), (-,0), (+,1)`, the positive ordinals
are `[0, 1]`, the negative ordinals `[0]`, and the six generated file names
are pairwise distinct. -/
theorem saves_reserve_unique_ordinals_witness :
    (runReservations freshM [refAB, negAB, refAB]).Nodup ∧
    ((runReservations freshM [refAB, negAB, refAB]).filterMap
        (fun p => if p.1 then some p.2 else none) = [0, 1]) ∧
    ((runReservations freshM [refAB, negAB, refAB]).filterMap
        (fun p => if p.1 then none else some p.2) = [0]) ∧
    (runNames freshM [refAB, negAB, refAB]).Nodup := by
  obtain ⟨h1, h2, h3, h4⟩ := saves_reserve_unique_ordinals freshM
    [refAB, negAB, refAB] (by decide) (by decide)
  exact ⟨h1, h2.trans (by decide), h3.trans (by decide), h4⟩

theorem filter_pos_neg_length (ss : List GenericSample) :
    (ss.filter fun t => t.is_positive).length +
      (ss.filter fun t => !t.is_positive).length = ss.length := by
  induction ss with
  | nil => rfl
  | cons s rest ih =>
    rcases hb : s.is_positive with _ | _ <;>
      simp [List.filter_cons, hb] <;> omega

/-- C3: after any sequence of completed saves, `positive_count +
negative_count` equals the number of saves since construction plus the
counts found on disk at startup (the constructed instance's initial
counters); each counter is monotonically non-decreasing along the
sequence. -/
theorem counters_sum_and_monotone (dp : List String) (folder : String)
    (s : GenericSample) (fs fs₁ : FileSystem) (m₀ : DatasetDiskManager)
    (ss : List GenericSample)
    (hinit : init dp folder s fs = (fs₁, Except.ok m₀))
    (hty : ∀ t ∈ ss, m₀.sample.typeId ∈ t.ancestors) :
    (runSaves m₀ ss).positive_count + (runSaves m₀ ss).negative_count =
      m₀.positive_count + m₀.negative_count + ss.length ∧
    (∃ f₀ rest, s.dataset_fields = f₀ :: rest ∧
      m₀.negative_count =
        countFilesIn fs₁ (dp ++ [folder, NEGATIVE_DATA_FOLDER, f₀]) ∧
      m₀.positive_count =
        countFilesIn fs₁ (dp ++ [folder, POSITIVE_DATA_FOLDER, f₀])) ∧
    ∀ ss₁ ss₂, ss = ss₁ ++ ss₂ →
      (runSaves m₀ ss₁).positive_count ≤ (runSaves m₀ ss).positive_count ∧
      (runSaves m₀ ss₁).negative_count ≤ (runSaves m₀ ss).negative_count := by
  refine ⟨?_, ?_, ?_⟩
  · rw [runSaves_positive_count ss m₀ hty, runSaves_negative_count ss m₀ hty]
    have := filter_pos_neg_length ss
    omega
  · rw [init] at hinit
    rcases hsu : set_up_folders dp folder s fs with ⟨fs₂, err⟩
    rw [hsu] at hinit
    cases err with
    | some e => simp at hinit
    | none =>
      rcases hf : s.dataset_fields with _ | ⟨f₀, rest⟩
      · simp only [count_samples, hf] at hinit
        simp at hinit
      · simp only [count_samples, hf] at hinit
        simp only [Prod.mk.injEq, Except.ok.injEq] at hinit
        refine ⟨f₀, rest, rfl, ?_, ?_⟩
        · rw [← hinit.2, ← hinit.1]
        · rw [← hinit.2, ← hinit.1]
  · intro ss₁ ss₂ hsplit
    rw [hsplit, runSaves_append]
    exact ⟨runSaves_positive_count_le ss₂ (runSaves m₀ ss₁),
      runSaves_negative_count_le ss₂ (runSaves m₀ ss₁)⟩

/-- Witness for C3: constructing over an empty tree and then saving one
positive and one negative sample gives `positive_count + negative_count =
0 + 0 + 2`, with counters non-decreasing along every prefix. -/
theorem counters_sum_and_monotone_witness :
    (runSaves freshM [refAB, negAB]).positive_count +
        (runSaves freshM [refAB, negAB]).negative_count =
      freshM.positive_count + freshM.negative_count + 2 ∧
    (runSaves freshM [refAB]).positive_count ≤
      (runSaves freshM [refAB, negAB]).positive_count := by
  have h := counters_sum_and_monotone ["dataset"] "folder" refAB emptyFS
    (init ["dataset"] "folder" refAB emptyFS).1 freshM [refAB, negAB]
    rfl (by decide)
  exact ⟨h.1, (h.2.2 [refAB] [negAB] rfl).1⟩

theorem countFilesIn_congr_files (fs fs' : FileSystem) (d : List String)
    (h : fs.files = fs'.files) : countFilesIn fs d = countFilesIn fs' d := by
  rw [countFilesIn, countFilesIn, h]

/-- C4: At construction, after directory setup, the initial counters are
computed by counting regular files in the first declared field's positive
directory and the same field's negative directory; building over a
pre-populated tree yields initial counters equal to the file counts found
there. -/
theorem init_counts_first_field (dp : List String) (folder : String)
    (s : GenericSample) (fs : FileSystem) (f₀ : String) (rest : List String)
    (hf : s.dataset_fields = f₀ :: rest)
    (hp : existsPath fs (dirname dp) = true) :
    init dp folder s fs = ((set_up_folders dp folder s fs).1,
      Except.ok ⟨dp, folder, s,
        countFilesIn fs (dp ++ [folder, NEGATIVE_DATA_FOLDER, f₀]),
        countFilesIn fs (dp ++ [folder, POSITIVE_DATA_FOLDER, f₀])⟩) := by
  have hsu : set_up_folders dp folder s fs =
      (List.foldl mkdirIfAbsent fs (setupPaths dp folder s), none) := by
    rw [set_up_folders, if_pos hp]
  rw [init, hsu]
  simp only [count_samples, hf]
  rw [countFilesIn_congr_files _ fs _
      (foldl_mkdirIfAbsent_files (setupPaths dp folder s) fs),
    countFilesIn_congr_files _ fs _
      (foldl_mkdirIfAbsent_files (setupPaths dp folder s) fs)]

/-- Witness for C4: reconstructing over a tree holding two files in the
first field's positive directory and one in its negative directory yields
initial positive count 2 and negative count 1. -/
theorem init_counts_first_field_witness :
    init ["dataset"] "folder" refAB
        ⟨[[]],
          [(["dataset", "folder", "positive_samples", "a"], "f1"),
           (["dataset", "folder", "positive_samples", "a"], "f2"),
           (["dataset", "folder", "negative_samples", "a"], "g1")]⟩ =
      ((set_up_folders ["dataset"] "folder" refAB
        ⟨[[]],
          [(["dataset", "folder", "positive_samples", "a"], "f1"),
           (["dataset", "folder", "positive_samples", "a"], "f2"),
           (["dataset", "folder", "negative_samples", "a"], "g1")]⟩).1,
        Except.ok ⟨["dataset"], "folder", refAB, 1, 2⟩) := by
  have h := init_counts_first_field ["dataset"] "folder" refAB
    ⟨[[]],
      [(["dataset", "folder", "positive_samples", "a"], "f1"),
       (["dataset", "folder", "positive_samples", "a"], "f2"),
       (["dataset", "folder", "negative_samples", "a"], "g1")]⟩
    "a" ["b"] rfl (by decide)
  rw [h]
  rfl

/-- Counterexample for C5: the claim says `save` fails with
`TypeMismatchError` if and only if the sample's concrete type differs from
the reference sample's concrete type.  `childAB` has concrete type tag 2,
different from the reference's tag 1, yet — being an instance of a subclass
of the reference's class — Python's `isinstance` check accepts it and the
save does not raise. -/
theorem save_sample_typeError_counterexample :
    childAB.typeId ≠ freshM.sample.typeId ∧
    (save_sample freshM childAB).2 ≠ SaveOutcome.typeError := by
  decide

/-- C5 (amended): `save` fails with `TypeMismatchError` if and only if the
sample is not an instance of the reference sample's class (its type is
neither the reference's concrete type nor a subclass of it); on this
failure the counter lock is never entered, the manager state — both
counters included — is unchanged, and nothing is written. -/
theorem save_sample_typeError_iff
    (writer : String → List String × String → Bool)
    (m : DatasetDiskManager) (s : GenericSample) :
    ((save_sample_w writer m s).2 = SaveOutcome.typeError ↔
      m.sample.typeId ∉ s.ancestors) ∧
    (m.sample.typeId ∉ s.ancestors →
      save_sample_w writer m s = (m, SaveOutcome.typeError)) := by
  by_cases h : m.sample.typeId ∈ s.ancestors
  · constructor
    · constructor
      · intro habs
        rw [save_sample_w, if_pos h] at habs
        exact absurd habs (write_loop_ne_typeError writer _ [])
      · intro habs
        exact absurd h habs
    · intro habs
      exact absurd h habs
  · constructor
    · rw [save_sample_w, if_neg h]
      simp [h]
    · intro _
      rw [save_sample_w, if_neg h]

/-- Witness for C5 (amended): saving a sample of an unrelated type raises
the type error and leaves the manager — in particular both counters —
untouched. -/
theorem save_sample_typeError_iff_witness :
    save_sample_w (fun _ _ => true) freshM otherAB =
      (freshM, SaveOutcome.typeError) ∧
    ((save_sample_w (fun _ _ => true) freshM otherAB).2 =
      SaveOutcome.typeError ↔ freshM.sample.typeId ∉ otherAB.ancestors) := by
  have h := save_sample_typeError_iff (fun _ _ => true) freshM otherAB
  exact ⟨h.2 (by decide), h.1⟩

/-- C6: Construction fails with `PathNotFoundError` exactly when the parent
directory of the dataset root path does not exist, and in that case it
aborts before creating any directory: the filesystem is returned
unchanged. -/
theorem init_pathNotFound_iff (dp : List String) (folder : String)
    (s : GenericSample) (fs : FileSystem) :
    ((init dp folder s fs).2 = Except.error DSError.pathNotFound ↔
      existsPath fs (dirname dp) = false) ∧
    (existsPath fs (dirname dp) = false →
      init dp folder s fs = (fs, Except.error DSError.pathNotFound)) := by
  by_cases hp : existsPath fs (dirname dp) = true
  · have hsu : set_up_folders dp folder s fs =
        (List.foldl mkdirIfAbsent fs (setupPaths dp folder s), none) := by
      rw [set_up_folders, if_pos hp]
    have hne : (init dp folder s fs).2 ≠ Except.error DSError.pathNotFound := by
      simp only [init, hsu]
      rcases hc : count_samples dp folder s
          (List.foldl mkdirIfAbsent fs (setupPaths dp folder s)) with
        _ | ⟨neg, pos⟩ <;> simp [hc]
    constructor
    · constructor
      · intro habs
        exact absurd habs hne
      · intro habs
        rw [hp] at habs
        exact absurd habs (by simp)
    · intro habs
      rw [hp] at habs
      exact absurd habs (by simp)
  · have hp' : existsPath fs (dirname dp) = false := by
      rcases hx : existsPath fs (dirname dp) with _ | _
      · rfl
      · exact absurd hx hp
    have hsu : set_up_folders dp folder s fs =
        (fs, some DSError.pathNotFound) := by
      rw [set_up_folders, if_neg (by rw [hp']; exact Bool.false_ne_true)]
    constructor
    · rw [init, hsu]
      simp [hp']
    · intro _
      rw [init, hsu]

/-- Witness for C6: constructing at path `["x", "y"]` over a filesystem
whose only directory is the root `[]` fails with the path error and leaves
the filesystem untouched. -/
theorem init_pathNotFound_iff_witness :
    init ["x", "y"] "folder" refAB emptyFS =
      (emptyFS, Except.error DSError.pathNotFound) ∧
    ((init ["x", "y"] "folder" refAB emptyFS).2 =
      Except.error DSError.pathNotFound ↔
        existsPath emptyFS (dirname ["x", "y"]) = false) := by
  have h := init_pathNotFound_iff ["x", "y"] "folder" refAB emptyFS
  exact ⟨h.2 (by decide), h.1⟩

/-- C7: Directory setup is idempotent: each of the dataset root, collection
folder, both branch directories, and every per-field directory in each
branch is created if absent and raises no error if present; running the
constructor again over the resulting tree changes nothing. -/
theorem set_up_folders_idempotent (dp : List String) (folder : String)
    (s : GenericSample) (fs fs₁ : FileSystem)
    (h : set_up_folders dp folder s fs = (fs₁, none)) :
    (∀ p ∈ setupPaths dp folder s, existsPath fs₁ p = true) ∧
    set_up_folders dp folder s fs₁ = (fs₁, none) ∧
    (init dp folder s fs₁).1 = fs₁ := by
  have hp : existsPath fs (dirname dp) = true := by
    by_contra hp
    rw [set_up_folders, if_neg hp] at h
    simp at h
  rw [set_up_folders, if_pos hp] at h
  have hfs₁ : fs₁ = List.foldl mkdirIfAbsent fs (setupPaths dp folder s) := by
    have := congrArg Prod.fst h
    exact this.symm
  have hall : ∀ p ∈ setupPaths dp folder s, existsPath fs₁ p = true := by
    rw [hfs₁]
    exact foldl_mkdirIfAbsent_all (setupPaths dp folder s) fs
  have hp₁ : existsPath fs₁ (dirname dp) = true := by
    rw [hfs₁]
    exact foldl_mkdirIfAbsent_mono (setupPaths dp folder s) fs (dirname dp) hp
  have hsu₁ : set_up_folders dp folder s fs₁ = (fs₁, none) := by
    rw [set_up_folders, if_pos hp₁, foldl_mkdirIfAbsent_noop _ fs₁ hall]
  refine ⟨hall, hsu₁, ?_⟩
  simp only [init, hsu₁]
  rcases hc : count_samples dp folder s fs₁ with _ | ⟨neg, pos⟩ <;> simp [hc]

/-- Witness for C7: running directory setup a second time over the tree
produced by the first run returns that tree unchanged and error-free. -/
theorem set_up_folders_idempotent_witness :
    set_up_folders ["dataset"] "folder" refAB
        (set_up_folders ["dataset"] "folder" refAB emptyFS).1 =
      ((set_up_folders ["dataset"] "folder" refAB emptyFS).1, none) := by
  have h := set_up_folders_idempotent ["dataset"] "folder" refAB emptyFS
    (set_up_folders ["dataset"] "folder" refAB emptyFS).1 rfl
  exact h.2.1

/-- C8: If a per-field write fails after the counter reservation, the
branch counter is not reverted: for every writer — including ones that
fail — the counters after the call reflect the reservation. -/
theorem failed_write_keeps_reservation
    (writer : String → List String × String → Bool)
    (m : DatasetDiskManager) (s : GenericSample)
    (h : m.sample.typeId ∈ s.ancestors) :
    (save_sample_w writer m s).1.positive_count =
      (if s.is_positive then m.positive_count + 1 else m.positive_count) ∧
    (save_sample_w writer m s).1.negative_count =
      (if s.is_positive then m.negative_count else m.negative_count + 1) := by
  rw [save_sample_w_fst writer m s h, reserve_positive_count,
    reserve_negative_count]
  exact ⟨rfl, rfl⟩

/-- Witness for C8: with a writer that fails on the very first field, the
save reports a failed write for field "a", yet the positive counter has
advanced to 1. -/
theorem failed_write_keeps_reservation_witness :
    (save_sample_w (fun _ _ => false) freshM refAB).2 =
      SaveOutcome.writeFailed [] "a" ∧
    (save_sample_w (fun _ _ => false) freshM refAB).1.positive_count = 1 := by
  have h := failed_write_keeps_reservation (fun _ _ => false) freshM refAB
    (by decide)
  exact ⟨by decide, h.1.trans (by decide)⟩

/-- C9: a reference sample with no declared fields makes construction fail
with an index error when computing the initial counts — even though the
directory setup step itself succeeds — so no instance is produced. -/
theorem init_empty_fields_indexError (dp : List String) (folder : String)
    (s : GenericSample) (fs : FileSystem) (hf : s.dataset_fields = [])
    (hp : existsPath fs (dirname dp) = true) :
    (init dp folder s fs).2 = Except.error DSError.indexError ∧
    (set_up_folders dp folder s fs).2 = none := by
  have hsu : set_up_folders dp folder s fs =
      (List.foldl mkdirIfAbsent fs (setupPaths dp folder s), none) := by
    rw [set_up_folders, if_pos hp]
  constructor
  · simp only [init, hsu, count_samples, hf]
  · rw [hsu]

/-- Witness for C9: a zero-field sample over an otherwise valid path fails
construction with the index error while setup reports no error. -/
theorem init_empty_fields_indexError_witness :
    (init ["dataset"] "folder" (⟨1, [1], true, []⟩ : GenericSample)
        emptyFS).2 = Except.error DSError.indexError ∧
    (set_up_folders ["dataset"] "folder" (⟨1, [1], true, []⟩ : GenericSample)
        emptyFS).2 = none :=
  init_empty_fields_indexError ["dataset"] "folder" ⟨1, [1], true, []⟩
    emptyFS rfl (by decide)

/-- C10: each save mutates only its own polarity's counter — a positive
save leaves the negative count unchanged and vice versa — and the two
accessors are pure functions returning the stored counters. -/
theorem save_frame_other_polarity
    (writer : String → List String × String → Bool)
    (m : DatasetDiskManager) (s : GenericSample)
    (h : m.sample.typeId ∈ s.ancestors) :
    (s.is_positive = true →
      (save_sample_w writer m s).1.negative_count = m.negative_count) ∧
    (s.is_positive = false →
      (save_sample_w writer m s).1.positive_count = m.positive_count) ∧
    get_positive_samples_count m = m.positive_count ∧
    get_negative_samples_count m = m.negative_count := by
  rw [save_sample_w_fst writer m s h, reserve_positive_count,
    reserve_negative_count]
  refine ⟨fun hb => by rw [hb]; rfl, fun hb => by rw [hb]; rfl, rfl, rfl⟩

/-- Witness for C10: a positive save on the fresh collection leaves the
negative counter at 0, and the accessors return the stored counters. -/
theorem save_frame_other_polarity_witness :
    (save_sample_w (fun _ _ => true) freshM refAB).1.negative_count = 0 ∧
    get_positive_samples_count freshM = 0 := by
  have h := save_frame_other_polarity (fun _ _ => true) freshM refAB
    (by decide)
  exact ⟨(h.1 (by decide)).trans (by decide), h.2.2.1.trans (by decide)⟩
